import Mathlib

/-
  Verification development for the Burner Chat backend (src/index.js).

  The core is embedded shallowly: the `rooms` Map becomes an association
  list keyed by room id, per-socket `userData` becomes a session map, and
  the three socket handlers (join_room, send_message, disconnect) plus the
  deferred empty-room reap become pure state transformers that also return
  the outbound emissions and the reap schedules they produce.  JavaScript
  truthiness of strings (the empty string is falsy) is modelled explicitly
  wherever the source tests a string with `if (s)`.
-/

namespace BurnerChat

/-- Lookup in an association list, first match wins (models `Map.get`). -/
def mapGet {α : Type} : List (String × α) → String → Option α
  | [], _ => none
  | (k', v') :: t, k => if k' = k then some v' else mapGet t k

/-- Insert/replace in an association list (models `Map.set` and in-place
mutation of the object returned by `Map.get`). -/
def mapSet {α : Type} : List (String × α) → String → α → List (String × α)
  | [], k, v => [(k, v)]
  | (k', v') :: t, k, v => if k' = k then (k, v) :: t else (k', v') :: mapSet t k v

/-- Remove a key from an association list (models `Map.delete`). -/
def mapDelete {α : Type} : List (String × α) → String → List (String × α)
  | [], _ => []
  | (k', v') :: t, k => if k' = k then mapDelete t k else (k', v') :: mapDelete t k

/-- A stored chat message (the `messageObj` literal of send_message).
`id` and `timestamp` are taken as inputs of the handler: `uuidv4()` and
`new Date().toISOString()` are external effects. -/
structure Message where
  id : String
  sender : Option String
  senderId : String
  message : String
  timestamp : String
deriving DecidableEq

/-- A room: `{ users: Set, messages: [], createdAt }`.  The `Set` of socket
ids is modelled as a duplicate-free list, the message array as a list in
insertion order. -/
structure Room where
  users : List String
  messages : List Message
  createdAt : Nat
deriving DecidableEq

/-- Per-socket `socket.userData`. -/
structure UserData where
  username : Option String
  currentRoom : Option String
deriving DecidableEq

/-- The whole in-memory server state: the `rooms` Map plus every socket's
`userData`. -/
structure ServerState where
  rooms : List (String × Room)
  sessions : List (String × UserData)
deriving DecidableEq

/-- Fresh server: no rooms, no sessions. -/
def initState : ServerState := ⟨[], []⟩

/-- The `userData` of a socket; a socket that has not been seen yet holds
`{ username: null, currentRoom: null }`, exactly what the connection
handler installs. -/
def sessionOf (st : ServerState) (sid : String) : UserData :=
  (mapGet st.sessions sid).getD ⟨none, none⟩

/-- `s.trim()`: strip leading and trailing whitespace.  Modelled over the
character list so that it is kernel-evaluable. -/
def jsTrim (s : String) : String :=
  String.mk (((s.data.dropWhile Char.isWhitespace).reverse.dropWhile
    Char.isWhitespace).reverse)

/-- 2^53: `Math.random()` returns a double of the form k / 2^53 with
0 ≤ k < 2^53. -/
def pow2_53 : Nat := 9007199254740992

/-- Digit n (0 ≤ n < 36) as the character JavaScript uses in base-36
output: 0-9 then a-z. -/
def base36Char (n : Nat) : Char :=
  if n < 10 then Char.ofNat (48 + n) else Char.ofNat (87 + n)

/-- Fractional base-36 digits of k / 2^53, most significant first,
stopping when the remainder is exactly zero (the expansion of a dyadic
rational in base 36 terminates, so fuel 30 > 27 is never exhausted). -/
def frac36Digits : Nat → Nat → List Nat
  | 0, _ => []
  | fuel + 1, k =>
    if k = 0 then []
    else (k * 36) / pow2_53 :: frac36Digits fuel ((k * 36) % pow2_53)

/-- `x.toString(36)` for x = k / 2^53 in [0,1): `"0"` for zero, otherwise
`"0."` followed by the fractional base-36 digits. -/
def jsDoubleToString36 (k : Nat) : String :=
  if k = 0 then "0" else "0." ++ String.mk ((frac36Digits 30 k).map base36Char)

/-- `s.substring(a, b)`: the characters from index a (inclusive) to b
(exclusive), clipped to the string's length. -/
def jsSubstring (s : String) (a b : Nat) : String :=
  String.mk ((s.data.drop a).take (b - a))

/-- `s.substring(0, n)`. -/
def jsTake (n : Nat) (s : String) : String :=
  String.mk (s.data.take n)

/-- `generateUsername()`: `Anon-` + `Math.random().toString(36).substring(2, 6)`,
with the random draw passed in as k (the value is k / 2^53). -/
def generateUsername (k : Nat) : String :=
  "Anon-" ++ jsSubstring (jsDoubleToString36 k) 2 6

/-- The `join_room` payload: either the legacy bare string, or an object
`{ roomId, username }` whose username field may be absent/null. -/
inductive JoinData where
  | str (roomId : String)
  | obj (roomId : String) (username : Option String)
deriving DecidableEq

/-- `typeof data === 'string' ? data : data.roomId`. -/
def JoinData.roomId : JoinData → String
  | .str r => r
  | .obj r _ => r

/-- `typeof data === 'object' ? data.username : null`. -/
def JoinData.customUsername : JoinData → Option String
  | .str _ => none
  | .obj _ u => u

/-- Username resolution of join_room:
`if (customUsername && customUsername.trim()) { trim().substring(0,20) } else generateUsername()`.
The two truthiness tests (the raw string, then its trim) are kept
separately. -/
def resolveUsername (cu : Option String) (k : Nat) : String :=
  match cu with
  | none => generateUsername k
  | some s =>
    if s = "" then generateUsername k
    else if jsTrim s = "" then generateUsername k
    else jsTake 20 (jsTrim s)

/-- Delivery target of an outbound event: `socket.emit`,
`socket.to(roomId).emit` and `io.to(roomId).emit` respectively. -/
inductive Target where
  | toSocket (sid : String)
  | toRoomExcept (roomId : String) (sid : String)
  | toRoom (roomId : String)
deriving DecidableEq

/-- Outbound event payloads. -/
inductive Payload where
  | user_joined (username : String) (userCount : Nat)
  | user_activity (kind : String) (text : String) (userCount : Nat)
  | receive_message (m : Message)
deriving DecidableEq

/-- What a handler produces besides the new state: emissions in order, and
the room ids for which it schedules a deferred reap (`setTimeout`). -/
structure Output where
  emits : List (Target × Payload)
  reaps : List String
deriving DecidableEq

/-- No emissions, no schedules. -/
def Output.empty : Output := ⟨[], []⟩

/-- `getOrCreateRoom(roomId)`: returns the map after the call and the room
it returns.  `createdAt` of a fresh room is the current time `now`. -/
def getOrCreateRoom (m : List (String × Room)) (rid : String) (now : Nat) :
    List (String × Room) × Room :=
  match mapGet m rid with
  | some r => (m, r)
  | none => (mapSet m rid ⟨[], [], now⟩, ⟨[], [], now⟩)

/-- `Set.add`: a no-op when the element is present, otherwise appended at
the end (JS Sets iterate in insertion order). -/
def setAdd (s : List String) (x : String) : List String :=
  if x ∈ s then s else s ++ [x]

/-- The "leave previous room" step of join_room:
`if (socket.userData.currentRoom) { … rooms.get(prev)?.users.delete(socket.id) }`.
Note the JS truthiness test: a current room recorded as the empty string
is falsy, so it is never left. -/
def leavePrev (rooms : List (String × Room)) (cur : Option String) (sid : String) :
    List (String × Room) :=
  match cur with
  | none => rooms
  | some prev =>
    if prev = "" then rooms
    else
      match mapGet rooms prev with
      | none => rooms
      | some prevRoom => mapSet rooms prev ⟨prevRoom.users.erase sid, prevRoom.messages, prevRoom.createdAt⟩

/-- The join_room handler.  `k` is the `Math.random()` draw (numerator over
2^53) consumed if a username must be generated, `now` the clock reading
used for a fresh room's `createdAt`. -/
def handleJoin (st : ServerState) (sid : String) (d : JoinData) (k : Nat) (now : Nat) :
    ServerState × Output :=
  let ud := sessionOf st sid
  let name := resolveUsername d.customUsername k
  let rid := d.roomId
  let rooms1 := leavePrev st.rooms ud.currentRoom sid
  let gc := getOrCreateRoom rooms1 rid now
  let room' : Room := ⟨setAdd gc.2.users sid, gc.2.messages, gc.2.createdAt⟩
  let cnt := room'.users.length
  (⟨mapSet gc.1 rid room', mapSet st.sessions sid ⟨some name, some rid⟩⟩,
   ⟨[(Target.toSocket sid, Payload.user_joined name cnt),
     (Target.toRoomExcept rid sid,
      Payload.user_activity "join" (name ++ " joined the chat") cnt)],
    []⟩)

/-- The send_message handler.  `msg` is `data.message` (absent fields give
`none`); `mid` and `ts` stand for `uuidv4()` and the ISO timestamp.
Guard: `if (!roomId || !message?.trim()) return;` then
`if (!room) return;` — note again that a current room recorded as the
empty string is falsy. -/
def handleSend (st : ServerState) (sid : String) (msg : Option String) (mid ts : String) :
    ServerState × Output :=
  let ud := sessionOf st sid
  match ud.currentRoom with
  | none => (st, Output.empty)
  | some rid =>
    if rid = "" then (st, Output.empty)
    else
      match msg with
      | none => (st, Output.empty)
      | some m =>
        if jsTrim m = "" then (st, Output.empty)
        else
          match mapGet st.rooms rid with
          | none => (st, Output.empty)
          | some room =>
            let messageObj : Message := ⟨mid, ud.username, sid, jsTrim m, ts⟩
            let msgs1 := room.messages ++ [messageObj]
            let msgs2 := if msgs1.length > 100 then msgs1.drop 1 else msgs1
            (⟨mapSet st.rooms rid ⟨room.users, msgs2, room.createdAt⟩, st.sessions⟩,
             ⟨[(Target.toRoom rid, Payload.receive_message messageObj)], []⟩)

/-- The disconnect handler: `if (roomId) { if (room) { delete, notify,
maybe schedule the 5-minute reap } }`.  It never touches the room map
beyond the membership delete, and only schedules (never performs) the
deferred deletion. -/
def handleDisconnect (st : ServerState) (sid : String) : ServerState × Output :=
  let ud := sessionOf st sid
  match ud.currentRoom with
  | none => (st, Output.empty)
  | some rid =>
    if rid = "" then (st, Output.empty)
    else
      match mapGet st.rooms rid with
      | none => (st, Output.empty)
      | some room =>
        let room' : Room := ⟨room.users.erase sid, room.messages, room.createdAt⟩
        let cnt := room'.users.length
        (⟨mapSet st.rooms rid room', st.sessions⟩,
         ⟨[(Target.toRoomExcept rid sid,
            Payload.user_activity "leave" ((ud.username.getD "null") ++ " left the chat") cnt)],
          if cnt = 0 then [rid] else []⟩)

/-- The body of the reap `setTimeout`: re-fetch the room; delete it iff it
still exists and its membership is still empty. -/
def reapRoom (st : ServerState) (rid : String) : ServerState :=
  match mapGet st.rooms rid with
  | none => st
  | some room =>
    if room.users.length = 0 then ⟨mapDelete st.rooms rid, st.sessions⟩ else st

/-- An inbound event of the core, with all external nondeterminism
(random draw, clock, uuid) carried in the event. -/
inductive Event where
  | join (sid : String) (d : JoinData) (k : Nat) (now : Nat)
  | send (sid : String) (msg : Option String) (mid : String) (ts : String)
  | disc (sid : String)
  | reap (rid : String)
deriving DecidableEq

/-- Dispatch one event. -/
def step (st : ServerState) (e : Event) : ServerState × Output :=
  match e with
  | .join sid d k now => handleJoin st sid d k now
  | .send sid m mid ts => handleSend st sid m mid ts
  | .disc sid => handleDisconnect st sid
  | .reap rid => (reapRoom st rid, Output.empty)

/-- The state part of `step`. -/
def stepSt (st : ServerState) (e : Event) : ServerState := (step st e).1

/-- Run a sequence of events from a given state. -/
def runFrom (st : ServerState) (es : List Event) : ServerState := es.foldl stepSt st

/-- Run a sequence of events on a fresh server. -/
def run (es : List Event) : ServerState := runFrom initState es

/-- All reap schedules produced along a trace, in order. -/
def collectReaps : ServerState → List Event → List String
  | _, [] => []
  | st, e :: rest => (step st e).2.reaps ++ collectReaps (stepSt st e) rest

/-- A join_room event (for claims quantifying over join-only traces). -/
structure JoinEv where
  sid : String
  d : JoinData
  k : Nat
  now : Nat
deriving DecidableEq

/-- State change of one join event. -/
def stepJoin (st : ServerState) (e : JoinEv) : ServerState :=
  (handleJoin st e.sid e.d e.k e.now).1

/-- Run a sequence of joins. -/
def runJoins (st : ServerState) (js : List JoinEv) : ServerState :=
  js.foldl stepJoin st

/-- The room named by the most recent join of each connection, threaded
from a baseline. -/
def lastJoinAux (L : String → Option String) : List JoinEv → String → Option String
  | [], s => L s
  | e :: js, s => lastJoinAux (fun s' => if e.sid = s' then some e.d.roomId else L s') js s

/-- The room named by the most recent join_room of connection `s` in the
trace (none if `s` never joined). -/
def lastJoin (js : List JoinEv) (s : String) : Option String :=
  lastJoinAux (fun _ => none) js s

/-- Invariant tying a server state to a map `L` from connection id to the
room named by its most recent join (if any): sessions record `L`; every
recorded room id is non-empty and present in the store; every room's
membership set is duplicate-free; and a connection is in a room's
membership set exactly when that room is its most recent join. -/
def JoinInv (st : ServerState) (L : String → Option String) : Prop :=
  (∀ s, (sessionOf st s).currentRoom = L s) ∧
  (∀ s rid, L s = some rid → rid ≠ "") ∧
  (∀ s rid, L s = some rid → (mapGet st.rooms rid).isSome = true) ∧
  (∀ rid r, mapGet st.rooms rid = some r → r.users.Nodup) ∧
  (∀ s rid r, mapGet st.rooms rid = some r → (s ∈ r.users ↔ L s = some rid))

/-- Boolean observer: is `sid` in room `rid`'s membership set? -/
def memberB (st : ServerState) (rid sid : String) : Bool :=
  match mapGet st.rooms rid with
  | some r => r.users.contains sid
  | none => false

/-- Boolean observer: does room `rid` exist in the store? -/
def roomExistsB (st : ServerState) (rid : String) : Bool :=
  (mapGet st.rooms rid).isSome

/-- Observer: member count of a room, when it exists. -/
def userCountOf (st : ServerState) (rid : String) : Option Nat :=
  (mapGet st.rooms rid).map (fun r => r.users.length)

/-- Observer: message count of a room, when it exists. -/
def msgCountOf (st : ServerState) (rid : String) : Option Nat :=
  (mapGet st.rooms rid).map (fun r => r.messages.length)

theorem mapGet_mapSet {α : Type} (m : List (String × α)) (k k' : String) (v : α) :
    mapGet (mapSet m k v) k' = if k = k' then some v else mapGet m k' := by
  induction m with
  | nil => simp [mapSet, mapGet]
  | cons p t ih =>
    obtain ⟨k₀, v₀⟩ := p
    by_cases h0 : k₀ = k
    · subst h0
      by_cases h : k₀ = k' <;> simp [mapSet, mapGet, h]
    · by_cases h : k₀ = k'
      · subst h
        have hk : ¬ (k = k₀) := fun hh => h0 hh.symm
        simp [mapSet, mapGet, h0, hk]
      · simp [mapSet, mapGet, h0, h, ih]

theorem mapGet_mapDelete {α : Type} (m : List (String × α)) (k k' : String) :
    mapGet (mapDelete m k) k' = if k = k' then none else mapGet m k' := by
  induction m with
  | nil => simp [mapDelete, mapGet]
  | cons p t ih =>
    obtain ⟨k₀, v₀⟩ := p
    by_cases h0 : k₀ = k
    · subst h0
      by_cases h : k₀ = k'
      · subst h; simp [mapDelete, ih]
      · simp [mapDelete, mapGet, h, ih]
    · by_cases h : k₀ = k'
      · subst h
        have hk : ¬ (k = k₀) := fun hh => h0 hh.symm
        simp [mapDelete, mapGet, h0, hk]
      · simp [mapDelete, mapGet, h0, h, ih]

theorem mapGet_getOrCreateRoom_self (m : List (String × Room)) (rid : String) (now : Nat) :
    mapGet (getOrCreateRoom m rid now).1 rid = some (getOrCreateRoom m rid now).2 := by
  unfold getOrCreateRoom
  cases h : mapGet m rid <;> simp [h, mapGet_mapSet]

theorem mapGet_getOrCreateRoom_ne (m : List (String × Room)) (rid : String) (now : Nat)
    (rid' : String) (h : rid ≠ rid') :
    mapGet (getOrCreateRoom m rid now).1 rid' = mapGet m rid' := by
  unfold getOrCreateRoom
  cases hh : mapGet m rid <;> simp [hh, mapGet_mapSet, h]

theorem mem_setAdd_self (s : List String) (x : String) : x ∈ setAdd s x := by
  unfold setAdd
  by_cases h : x ∈ s <;> simp [h]

theorem mem_setAdd_iff (s : List String) (x y : String) :
    y ∈ setAdd s x ↔ y ∈ s ∨ y = x := by
  unfold setAdd
  by_cases h : x ∈ s
  · simp only [if_pos h]
    constructor
    · exact Or.inl
    · rintro (hy | rfl)
      · exact hy
      · exact h
  · simp [h]

theorem handleJoin_rooms (st : ServerState) (sid : String) (d : JoinData) (k now : Nat) :
    (handleJoin st sid d k now).1.rooms =
      mapSet (getOrCreateRoom (leavePrev st.rooms (sessionOf st sid).currentRoom sid)
        d.roomId now).1 d.roomId
        ⟨setAdd (getOrCreateRoom (leavePrev st.rooms (sessionOf st sid).currentRoom sid)
          d.roomId now).2.users sid,
         (getOrCreateRoom (leavePrev st.rooms (sessionOf st sid).currentRoom sid)
          d.roomId now).2.messages,
         (getOrCreateRoom (leavePrev st.rooms (sessionOf st sid).currentRoom sid)
          d.roomId now).2.createdAt⟩ := rfl

theorem handleJoin_sessions (st : ServerState) (sid : String) (d : JoinData) (k now : Nat) :
    (handleJoin st sid d k now).1.sessions =
      mapSet st.sessions sid ⟨some (resolveUsername d.customUsername k), some d.roomId⟩ := rfl

theorem handleJoin_target_mem (st : ServerState) (sid : String) (d : JoinData) (k now : Nat) :
    ∃ room', mapGet (handleJoin st sid d k now).1.rooms d.roomId = some room' ∧
      sid ∈ room'.users := by
  rw [handleJoin_rooms]
  refine ⟨_, by rw [mapGet_mapSet, if_pos rfl], ?_⟩
  exact mem_setAdd_self _ _

theorem handleJoin_out (st : ServerState) (sid : String) (d : JoinData) (k now : Nat) :
    (handleJoin st sid d k now).2 =
      ⟨[(Target.toSocket sid,
         Payload.user_joined (resolveUsername d.customUsername k)
           (setAdd (getOrCreateRoom (leavePrev st.rooms (sessionOf st sid).currentRoom sid)
             d.roomId now).2.users sid).length),
        (Target.toRoomExcept d.roomId sid,
         Payload.user_activity "join" (resolveUsername d.customUsername k ++ " joined the chat")
           (setAdd (getOrCreateRoom (leavePrev st.rooms (sessionOf st sid).currentRoom sid)
             d.roomId now).2.users sid).length)],
       []⟩ := rfl

/-- C3: a reap firing for room `rid` deletes the room from the store iff at
that moment the room still exists and its membership is empty; in every
other case the state is left untouched, so a join completed before the
fire prevents deletion, a non-empty room is never deleted, and overlapping
schedules for the same room id are each harmless (firing is idempotent). -/
theorem reap_deletes_iff_still_empty (st : ServerState) (rid : String) :
    (∀ room, mapGet st.rooms rid = some room → room.users = [] →
      (reapRoom st rid).rooms = mapDelete st.rooms rid ∧
      mapGet (reapRoom st rid).rooms rid = none ∧
      (reapRoom st rid).sessions = st.sessions ∧
      (∀ rid', rid ≠ rid' → mapGet (reapRoom st rid).rooms rid' = mapGet st.rooms rid')) ∧
    (∀ room, mapGet st.rooms rid = some room → room.users ≠ [] → reapRoom st rid = st) ∧
    (mapGet st.rooms rid = none → reapRoom st rid = st) ∧
    reapRoom (reapRoom st rid) rid = reapRoom st rid ∧
    (∀ sid d k now, JoinData.roomId d = rid →
      reapRoom (handleJoin st sid d k now).1 rid = (handleJoin st sid d k now).1) := by
  refine ⟨?_, ?_, ?_, ?_, ?_⟩
  · intro room hget hempty
    have hr : reapRoom st rid = ⟨mapDelete st.rooms rid, st.sessions⟩ := by
      simp [reapRoom, hget, hempty]
    rw [hr]
    refine ⟨rfl, ?_, rfl, ?_⟩
    · simp [mapGet_mapDelete]
    · intro rid' hne
      simp [mapGet_mapDelete, hne]
  · intro room hget hne
    simp [reapRoom, hget, List.length_eq_zero, hne]
  · intro hget
    simp [reapRoom, hget]
  · by_cases hg : ∃ room, mapGet st.rooms rid = some room ∧ room.users = []
    · obtain ⟨room, hget, hempty⟩ := hg
      have h1 : reapRoom st rid = ⟨mapDelete st.rooms rid, st.sessions⟩ := by
        simp [reapRoom, hget, hempty]
      rw [h1]
      simp [reapRoom, mapGet_mapDelete]
    · have hst : reapRoom st rid = st := by
        cases hget : mapGet st.rooms rid with
        | none => simp [reapRoom, hget]
        | some room =>
          have hne : room.users ≠ [] := fun hh => hg ⟨room, hget, hh⟩
          simp [reapRoom, hget, List.length_eq_zero, hne]
      rw [hst, hst]
  · intro sid d k now hd
    obtain ⟨room', hget, hmem⟩ := handleJoin_target_mem st sid d k now
    rw [hd] at hget
    have hne : room'.users ≠ [] := by
      intro hh
      rw [hh] at hmem
      exact (List.not_mem_nil _) hmem
    simp [reapRoom, hget, List.length_eq_zero, hne]

/-- C3 witness: on a store holding one empty room `r`, the reap deletes it,
and on a store holding `r` with one member the reap is a no-op. -/
theorem reap_deletes_iff_still_empty_witness :
    mapGet (⟨[("r", ⟨[], [], 0⟩)], []⟩ : ServerState).rooms "r" = some ⟨[], [], 0⟩ ∧
    mapGet (reapRoom ⟨[("r", ⟨[], [], 0⟩)], []⟩ "r").rooms "r" = none ∧
    reapRoom ⟨[("r", ⟨["A"], [], 0⟩)], []⟩ "r" = ⟨[("r", ⟨["A"], [], 0⟩)], []⟩ :=
  ⟨rfl,
   ((reap_deletes_iff_still_empty ⟨[("r", ⟨[], [], 0⟩)], []⟩ "r").1 ⟨[], [], 0⟩ rfl rfl).2.1,
   (reap_deletes_iff_still_empty ⟨[("r", ⟨["A"], [], 0⟩)], []⟩ "r").2.1 ⟨["A"], [], 0⟩ rfl
     (by decide)⟩

/-- C4: a send_message whose connection has no current room, or whose text
is absent or empty after trimming, or whose current room is missing from
the store, is a complete no-op: the state is unchanged and no outbound
event (and no reap schedule) is produced. -/
theorem send_message_noop (st : ServerState) (sid : String) (msg : Option String)
    (mid ts : String)
    (h : (sessionOf st sid).currentRoom = none ∨
         msg = none ∨
         (∃ s, msg = some s ∧ jsTrim s = "") ∨
         (∃ rid, (sessionOf st sid).currentRoom = some rid ∧ mapGet st.rooms rid = none)) :
    handleSend st sid msg mid ts = (st, Output.empty) := by
  rcases h with h | h | ⟨s, hmsg, hs⟩ | ⟨rid, hcur, hroom⟩
  · simp [handleSend, h]
  · subst h
    cases hc : (sessionOf st sid).currentRoom with
    | none => simp [handleSend, hc]
    | some rid =>
      by_cases hr : rid = "" <;> simp [handleSend, hc, hr]
  · subst hmsg
    cases hc : (sessionOf st sid).currentRoom with
    | none => simp [handleSend, hc]
    | some rid =>
      by_cases hr : rid = "" <;> simp [handleSend, hc, hr, hs]
  · by_cases hr : rid = ""
    · cases msg with
      | none => simp [handleSend, hcur, hr]
      | some s =>
        by_cases hs : jsTrim s = "" <;> simp [handleSend, hcur, hr, hs]
    · cases msg with
      | none => simp [handleSend, hcur, hr]
      | some s =>
        by_cases hs : jsTrim s = "" <;> simp [handleSend, hcur, hr, hs, hroom]

/-- C4 witness: a connection that never joined sends "hi" on a fresh
server — nothing happens. -/
theorem send_message_noop_witness :
    (sessionOf initState "A").currentRoom = none ∧
    handleSend initState "A" (some "hi") "m1" "t1" = (initState, Output.empty) :=
  ⟨rfl, send_message_noop initState "A" (some "hi") "m1" "t1" (Or.inl rfl)⟩

/-- C10: a disconnect whose recorded current room is absent from the store
mutates nothing, emits nothing and schedules no reap: the handler returns
the state unchanged with empty output. -/
theorem disconnect_absent_room_noop (st : ServerState) (sid rid : String)
    (h1 : (sessionOf st sid).currentRoom = some rid)
    (h2 : mapGet st.rooms rid = none) :
    handleDisconnect st sid = (st, Output.empty) := by
  by_cases hr : rid = ""
  · simp [handleDisconnect, h1, hr]
  · simp [handleDisconnect, h1, hr, h2]

/-- C10 witness: a session pointing at room `r` while the store is empty —
disconnect is a complete no-op. -/
theorem disconnect_absent_room_noop_witness :
    (sessionOf ⟨[], [("A", ⟨some "Alice", some "r"⟩)]⟩ "A").currentRoom = some "r" ∧
    mapGet (⟨[], [("A", ⟨some "Alice", some "r"⟩)]⟩ : ServerState).rooms "r" = none ∧
    handleDisconnect ⟨[], [("A", ⟨some "Alice", some "r"⟩)]⟩ "A" =
      (⟨[], [("A", ⟨some "Alice", some "r"⟩)]⟩, Output.empty) :=
  ⟨rfl, rfl, disconnect_absent_room_noop ⟨[], [("A", ⟨some "Alice", some "r"⟩)]⟩ "A" "r" rfl rfl⟩

/-- C5: every join_room emits exactly two events: a `user_joined` to the
joining connection only, carrying the resolved display name and the room's
member count measured after the join, and a `user_activity` of type
"join" with message "<name> joined the chat" and the same count, targeted
at the room excluding the joining connection.  No reap is scheduled. -/
theorem join_room_emissions (st : ServerState) (sid : String) (d : JoinData) (k now : Nat) :
    ∃ room', mapGet (handleJoin st sid d k now).1.rooms d.roomId = some room' ∧
      (handleJoin st sid d k now).2.emits =
        [(Target.toSocket sid,
          Payload.user_joined (resolveUsername d.customUsername k) room'.users.length),
         (Target.toRoomExcept d.roomId sid,
          Payload.user_activity "join"
            (resolveUsername d.customUsername k ++ " joined the chat") room'.users.length)] ∧
      (handleJoin st sid d k now).2.reaps = [] := by
  refine ⟨⟨setAdd (getOrCreateRoom (leavePrev st.rooms (sessionOf st sid).currentRoom sid)
      d.roomId now).2.users sid,
    (getOrCreateRoom (leavePrev st.rooms (sessionOf st sid).currentRoom sid)
      d.roomId now).2.messages,
    (getOrCreateRoom (leavePrev st.rooms (sessionOf st sid).currentRoom sid)
      d.roomId now).2.createdAt⟩, ?_, rfl, rfl⟩
  rw [handleJoin_rooms, mapGet_mapSet, if_pos rfl]

/-- C7: when join_room carries a custom username that is non-empty after
trimming, the stored display name is the trimmed username truncated to 20
characters, and in particular it never exceeds 20 characters. -/
theorem join_room_custom_username (st : ServerState) (sid rid u : String) (k now : Nat)
    (h : jsTrim u ≠ "") :
    (sessionOf (handleJoin st sid (JoinData.obj rid (some u)) k now).1 sid).username =
      some (jsTake 20 (jsTrim u)) ∧
    (jsTake 20 (jsTrim u)).length ≤ 20 := by
  constructor
  · have hu : u ≠ "" := by
      intro hh
      rw [hh] at h
      exact h rfl
    unfold sessionOf
    rw [handleJoin_sessions, mapGet_mapSet, if_pos rfl]
    simp [resolveUsername, JoinData.customUsername, hu, h]
  · show (String.mk ((jsTrim u).data.take 20)).length ≤ 20
    have : (String.mk ((jsTrim u).data.take 20)).length = ((jsTrim u).data.take 20).length := rfl
    rw [this]
    exact List.length_take_le 20 _

/-- C7 witness: joining with username "Alice" stores "Alice" (its own trim,
truncated to 20). -/
theorem join_room_custom_username_witness :
    jsTrim "Alice" ≠ "" ∧
    (sessionOf (handleJoin initState "A" (JoinData.obj "r" (some "Alice")) 0 0).1 "A").username =
      some (jsTake 20 (jsTrim "Alice")) :=
  ⟨by decide, (join_room_custom_username initState "A" "r" "Alice" 0 0 (by decide)).1⟩

/-- C8: a join_room naming the room the connection is already a member of
leaves that room's membership set unchanged as a set — same members, same
size — so the member count in the emissions equals the count before the
rejoin; the full leave+rejoin sequence still runs and both emissions are
still produced. -/
theorem rejoin_same_room (st : ServerState) (sid : String) (d : JoinData) (k now : Nat)
    (room : Room)
    (hcur : (sessionOf st sid).currentRoom = some d.roomId)
    (hroom : mapGet st.rooms d.roomId = some room)
    (hmem : sid ∈ room.users)
    (hnd : room.users.Nodup) :
    ∃ room', mapGet (handleJoin st sid d k now).1.rooms d.roomId = some room' ∧
      (∀ x, x ∈ room'.users ↔ x ∈ room.users) ∧
      room'.users.length = room.users.length ∧
      (handleJoin st sid d k now).2.emits =
        [(Target.toSocket sid,
          Payload.user_joined (resolveUsername d.customUsername k) room.users.length),
         (Target.toRoomExcept d.roomId sid,
          Payload.user_activity "join"
            (resolveUsername d.customUsername k ++ " joined the chat") room.users.length)] := by
  by_cases hr : d.roomId = ""
  · have h1 : leavePrev st.rooms (sessionOf st sid).currentRoom sid = st.rooms := by
      rw [hcur]
      simp [leavePrev, hr]
    have h2 : getOrCreateRoom st.rooms d.roomId now = (st.rooms, room) := by
      simp [getOrCreateRoom, hroom]
    have h3 : setAdd room.users sid = room.users := by
      simp [setAdd, hmem]
    refine ⟨⟨room.users, room.messages, room.createdAt⟩, ?_, fun x => Iff.rfl, rfl, ?_⟩
    · rw [handleJoin_rooms, h1, h2, mapGet_mapSet]
      simp [h3]
    · rw [handleJoin_out, h1, h2]
      simp [h3]
  · have h1 : leavePrev st.rooms (sessionOf st sid).currentRoom sid =
        mapSet st.rooms d.roomId ⟨room.users.erase sid, room.messages, room.createdAt⟩ := by
      rw [hcur]
      simp [leavePrev, hr, hroom]
    have h2 : getOrCreateRoom
        (mapSet st.rooms d.roomId ⟨room.users.erase sid, room.messages, room.createdAt⟩)
        d.roomId now =
        (mapSet st.rooms d.roomId ⟨room.users.erase sid, room.messages, room.createdAt⟩,
         ⟨room.users.erase sid, room.messages, room.createdAt⟩) := by
      simp [getOrCreateRoom, mapGet_mapSet]
    have hnotmem : sid ∉ room.users.erase sid := by
      intro hh
      exact ((hnd.mem_erase_iff).1 hh).1 rfl
    have h3 : setAdd (room.users.erase sid) sid = room.users.erase sid ++ [sid] := by
      simp [setAdd, hnotmem]
    have hlen : (room.users.erase sid ++ [sid]).length = room.users.length := by
      have hpos : 0 < room.users.length := List.length_pos.2 (List.ne_nil_of_mem hmem)
      rw [List.length_append, List.length_erase_of_mem hmem]
      simp
      omega
    have hiff : ∀ x, x ∈ room.users.erase sid ++ [sid] ↔ x ∈ room.users := by
      intro x
      by_cases hx : x = sid
      · subst hx
        simp [hmem]
      · simp only [List.mem_append, List.mem_singleton, hx, or_false]
        exact List.mem_erase_of_ne hx
    refine ⟨⟨room.users.erase sid ++ [sid], room.messages, room.createdAt⟩, ?_, hiff, hlen, ?_⟩
    · rw [handleJoin_rooms, h1, h2, mapGet_mapSet]
      simp [h3]
    · rw [handleJoin_out, h1, h2]
      simp only []
      rw [h3, hlen]

/-- C8 witness: "A" is alone in room "r" and rejoins "r" — membership and
reported count stay 1, both emissions are produced. -/
theorem rejoin_same_room_witness :
    (sessionOf ⟨[("r", ⟨["A"], [], 0⟩)], [("A", ⟨some "Alice", some "r"⟩)]⟩ "A").currentRoom =
      some (JoinData.obj "r" (some "Alice")).roomId ∧
    mapGet (⟨[("r", ⟨["A"], [], 0⟩)], [("A", ⟨some "Alice", some "r"⟩)]⟩ : ServerState).rooms
      (JoinData.obj "r" (some "Alice")).roomId = some ⟨["A"], [], 0⟩ ∧
    "A" ∈ (⟨["A"], [], 0⟩ : Room).users ∧
    (⟨["A"], [], 0⟩ : Room).users.Nodup ∧
    (∃ room', mapGet (handleJoin ⟨[("r", ⟨["A"], [], 0⟩)], [("A", ⟨some "Alice", some "r"⟩)]⟩
        "A" (JoinData.obj "r" (some "Alice")) 0 0).1.rooms
        (JoinData.obj "r" (some "Alice")).roomId = some room' ∧
      (∀ x, x ∈ room'.users ↔ x ∈ (⟨["A"], [], 0⟩ : Room).users) ∧
      room'.users.length = (⟨["A"], [], 0⟩ : Room).users.length ∧
      (handleJoin ⟨[("r", ⟨["A"], [], 0⟩)], [("A", ⟨some "Alice", some "r"⟩)]⟩
        "A" (JoinData.obj "r" (some "Alice")) 0 0).2.emits =
        [(Target.toSocket "A",
          Payload.user_joined (resolveUsername (JoinData.obj "r" (some "Alice")).customUsername 0)
            (⟨["A"], [], 0⟩ : Room).users.length),
         (Target.toRoomExcept (JoinData.obj "r" (some "Alice")).roomId "A",
          Payload.user_activity "join"
            (resolveUsername (JoinData.obj "r" (some "Alice")).customUsername 0 ++
              " joined the chat")
            (⟨["A"], [], 0⟩ : Room).users.length)]) :=
  ⟨rfl, rfl, by decide, by decide,
   rejoin_same_room ⟨[("r", ⟨["A"], [], 0⟩)], [("A", ⟨some "Alice", some "r"⟩)]⟩
     "A" (JoinData.obj "r" (some "Alice")) 0 0 ⟨["A"], [], 0⟩ rfl rfl (by decide) (by decide)⟩

theorem mk_append_data (a : String) (l : List Char) : (a ++ String.mk l).data = a.data ++ l := by
  cases a
  rfl

theorem frac36Digits_lt (fuel : Nat) : ∀ k, k < pow2_53 → ∀ d ∈ frac36Digits fuel k, d < 36 := by
  induction fuel with
  | zero =>
    intro k _ d hd
    simp [frac36Digits] at hd
  | succ n ih =>
    intro k hk d hd
    by_cases hk0 : k = 0
    · rw [frac36Digits, if_pos hk0] at hd
      exact absurd hd (List.not_mem_nil d)
    · rw [frac36Digits, if_neg hk0] at hd
      rcases List.mem_cons.1 hd with rfl | hd'
      · have hlt : k * 36 < pow2_53 * 36 :=
          Nat.mul_lt_mul_of_lt_of_le hk (Nat.le_refl 36) (by decide)
        exact Nat.div_lt_of_lt_mul hlt
      · exact ih (k * 36 % pow2_53) (Nat.mod_lt _ (by decide)) d hd'

theorem base36Char_alnum : ∀ d, d < 36 → ((base36Char d).isDigit || (base36Char d).isLower) = true := by
  decide

/-- C6 counterexample: `Math.random()` can return exactly 0; then
`(0).toString(36) = "0"`, its `substring(2, 6)` is empty, and the
generated name is just the bare prefix — not the prefix followed by
exactly 4 characters. -/
theorem generateUsername_cex :
    0 < pow2_53 ∧
    generateUsername 0 = "Anon-" ∧
    ¬ ∃ su, generateUsername 0 = "Anon-" ++ su ∧ su.length = 4 := by
  refine ⟨by decide, rfl, ?_⟩
  rintro ⟨su, he, hl⟩
  rw [show generateUsername 0 = "Anon-" from rfl] at he
  have hlen := congrArg String.length he
  rw [String.length_append] at hlen
  omega

/-- C6 amended: for a join with no usable username, the generated display
name is the fixed prefix "Anon-" followed by AT MOST 4 random lowercase
alphanumeric characters — exactly 4 except when the random draw's base-36
expansion terminates within 3 fractional digits (e.g. exactly 0). -/
theorem generateUsername_shape (k : Nat) (h : k < pow2_53) :
    ∃ su, generateUsername k = "Anon-" ++ su ∧ su.length ≤ 4 ∧
      ∀ c ∈ su.data, (c.isDigit || c.isLower) = true := by
  refine ⟨jsSubstring (jsDoubleToString36 k) 2 6, rfl, ?_, ?_⟩
  · show (((jsDoubleToString36 k).data.drop 2).take 4).length ≤ 4
    exact List.length_take_le 4 _
  · intro c hc
    have hc2 : c ∈ ((jsDoubleToString36 k).data.drop 2).take 4 := hc
    by_cases hk : k = 0
    · subst hk
      have hnil : (((jsDoubleToString36 0).data.drop 2).take 4) = [] := rfl
      rw [hnil] at hc2
      exact absurd hc2 (List.not_mem_nil c)
    · have hdata : (jsDoubleToString36 k).data =
          '0' :: '.' :: (frac36Digits 30 k).map base36Char := by
        rw [jsDoubleToString36, if_neg hk, mk_append_data]
        rfl
      rw [hdata] at hc2
      have hc3 : c ∈ ((frac36Digits 30 k).map base36Char).take 4 := hc2
      have hc4 := List.mem_of_mem_take hc3
      obtain ⟨d, hd, rfl⟩ := List.mem_map.1 hc4
      exact base36Char_alnum d (frac36Digits_lt 30 k h d hd)

/-- C6 witness: the draw 2^52 (the double 0.5, base-36 "0.i") gives
"Anon-i": a suffix of length 1 ≤ 4 made of lowercase alphanumerics. -/
theorem generateUsername_shape_witness :
    4503599627370496 < pow2_53 ∧
    ∃ su, generateUsername 4503599627370496 = "Anon-" ++ su ∧ su.length ≤ 4 ∧
      ∀ c ∈ su.data, (c.isDigit || c.isLower) = true :=
  ⟨by decide, generateUsername_shape 4503599627370496 (by decide)⟩

theorem leavePrev_msgs (rooms : List (String × Room)) (cur : Option String) (sid rid : String)
    (r : Room) (h : mapGet (leavePrev rooms cur sid) rid = some r) :
    ∃ r₀, mapGet rooms rid = some r₀ ∧ r.messages = r₀.messages := by
  cases cur with
  | none => exact ⟨r, h, rfl⟩
  | some prev =>
    by_cases hp : prev = ""
    · simp only [leavePrev, if_pos hp] at h
      exact ⟨r, h, rfl⟩
    · cases hg : mapGet rooms prev with
      | none =>
        simp only [leavePrev, if_neg hp, hg] at h
        exact ⟨r, h, rfl⟩
      | some pr =>
        simp only [leavePrev, if_neg hp, hg] at h
        rw [mapGet_mapSet] at h
        by_cases he : prev = rid
        · rw [if_pos he] at h
          injection h with h
          exact ⟨pr, he ▸ hg, by rw [← h]⟩
        · rw [if_neg he] at h
          exact ⟨r, h, rfl⟩

theorem getOrCreateRoom_fst_msgs (m : List (String × Room)) (rid : String) (now : Nat)
    (rid0 : String) (r : Room) (h : mapGet (getOrCreateRoom m rid now).1 rid0 = some r) :
    (∃ r₀, mapGet m rid0 = some r₀ ∧ r.messages = r₀.messages) ∨ r.messages = [] := by
  cases hg : mapGet m rid with
  | some rr =>
    simp only [getOrCreateRoom, hg] at h
    exact Or.inl ⟨r, h, rfl⟩
  | none =>
    simp only [getOrCreateRoom, hg] at h
    rw [mapGet_mapSet] at h
    by_cases he : rid = rid0
    · rw [if_pos he] at h
      injection h with h
      right
      rw [← h]
    · rw [if_neg he] at h
      exact Or.inl ⟨r, h, rfl⟩

theorem getOrCreateRoom_snd_msgs (m : List (String × Room)) (rid : String) (now : Nat) :
    (∃ r₀, mapGet m rid = some r₀ ∧ (getOrCreateRoom m rid now).2.messages = r₀.messages) ∨
    (getOrCreateRoom m rid now).2.messages = [] := by
  cases hg : mapGet m rid with
  | some rr => exact Or.inl ⟨rr, rfl, by simp [getOrCreateRoom, hg]⟩
  | none => exact Or.inr (by simp [getOrCreateRoom, hg])

theorem drop_one_append (msgs : List Message) (x : Message) (h : msgs ≠ []) :
    (msgs ++ [x]).drop 1 = msgs.drop 1 ++ [x] := by
  cases msgs with
  | nil => exact absurd rfl h
  | cons a t => rfl

theorem step_msgs_bounded (st : ServerState) (e : Event)
    (h : ∀ rid r, mapGet st.rooms rid = some r → r.messages.length ≤ 100) :
    ∀ rid r, mapGet (stepSt st e).rooms rid = some r → r.messages.length ≤ 100 := by
  cases e with
  | join sid d k now =>
    intro rid r hr
    have hr' : mapGet (handleJoin st sid d k now).1.rooms rid = some r := hr
    rw [handleJoin_rooms, mapGet_mapSet] at hr'
    by_cases he : d.roomId = rid
    · rw [if_pos he] at hr'
      injection hr' with hr'
      have hmsg : r.messages =
          (getOrCreateRoom (leavePrev st.rooms (sessionOf st sid).currentRoom sid)
            d.roomId now).2.messages := by rw [← hr']
      rcases getOrCreateRoom_snd_msgs (leavePrev st.rooms (sessionOf st sid).currentRoom sid)
          d.roomId now with ⟨r₀, hg0, hm0⟩ | hm0
      · obtain ⟨r₁, hg1, hm1⟩ := leavePrev_msgs _ _ _ _ _ hg0
        rw [hmsg, hm0, hm1]
        exact h _ _ hg1
      · rw [hmsg, hm0]
        simp
    · rw [if_neg he] at hr'
      rcases getOrCreateRoom_fst_msgs _ _ _ _ _ hr' with ⟨r₀, hg0, hm0⟩ | hm0
      · obtain ⟨r₁, hg1, hm1⟩ := leavePrev_msgs _ _ _ _ _ hg0
        rw [hm0, hm1]
        exact h _ _ hg1
      · rw [hm0]
        simp
  | send sid m mid ts =>
    intro rid0 r hr
    have hr' : mapGet (handleSend st sid m mid ts).1.rooms rid0 = some r := hr
    cases hc : (sessionOf st sid).currentRoom with
    | none =>
      simp only [handleSend, hc] at hr'
      exact h _ _ hr'
    | some rid =>
      by_cases hrid : rid = ""
      · simp only [handleSend, hc, if_pos hrid] at hr'
        exact h _ _ hr'
      · cases m with
        | none =>
          simp only [handleSend, hc, if_neg hrid] at hr'
          exact h _ _ hr'
        | some s =>
          by_cases hs : jsTrim s = ""
          · simp only [handleSend, hc, if_neg hrid, if_pos hs] at hr'
            exact h _ _ hr'
          · cases hg : mapGet st.rooms rid with
            | none =>
              simp only [handleSend, hc, if_neg hrid, if_neg hs, hg] at hr'
              exact h _ _ hr'
            | some room =>
              simp only [handleSend, hc, if_neg hrid, if_neg hs, hg] at hr'
              rw [mapGet_mapSet] at hr'
              by_cases he : rid = rid0
              · rw [if_pos he] at hr'
                injection hr' with hr'
                have hlen : room.messages.length ≤ 100 := h _ _ hg
                by_cases hfull :
                    (room.messages ++
                      [(⟨mid, (sessionOf st sid).username, sid, jsTrim s, ts⟩ : Message)]).length > 100
                · rw [← hr']
                  simp only [if_pos hfull]
                  rw [List.length_drop, List.length_append]
                  simp
                  omega
                · rw [← hr']
                  simp only [if_neg hfull]
                  rw [List.length_append] at hfull ⊢
                  simp at hfull ⊢
                  omega
              · rw [if_neg he] at hr'
                exact h _ _ hr'
  | disc sid =>
    intro rid0 r hr
    have hr' : mapGet (handleDisconnect st sid).1.rooms rid0 = some r := hr
    cases hc : (sessionOf st sid).currentRoom with
    | none =>
      simp only [handleDisconnect, hc] at hr'
      exact h _ _ hr'
    | some rid =>
      by_cases hrid : rid = ""
      · simp only [handleDisconnect, hc, if_pos hrid] at hr'
        exact h _ _ hr'
      · cases hg : mapGet st.rooms rid with
        | none =>
          simp only [handleDisconnect, hc, if_neg hrid, hg] at hr'
          exact h _ _ hr'
        | some room =>
          simp only [handleDisconnect, hc, if_neg hrid, hg] at hr'
          rw [mapGet_mapSet] at hr'
          by_cases he : rid = rid0
          · rw [if_pos he] at hr'
            injection hr' with hr'
            rw [← hr']
            show room.messages.length ≤ 100
            exact h _ _ hg
          · rw [if_neg he] at hr'
            exact h _ _ hr'
  | reap rid =>
    intro rid0 r hr
    have hr' : mapGet (reapRoom st rid).rooms rid0 = some r := hr
    cases hg : mapGet st.rooms rid with
    | none =>
      simp only [reapRoom, hg] at hr'
      exact h _ _ hr'
    | some room =>
      by_cases hu : room.users.length = 0
      · simp only [reapRoom, hg, if_pos hu] at hr'
        rw [mapGet_mapDelete] at hr'
        by_cases he : rid = rid0
        · rw [if_pos he] at hr'
          exact absurd hr' (by simp)
        · rw [if_neg he] at hr'
          exact h _ _ hr'
      · simp only [reapRoom, hg, if_neg hu] at hr'
        exact h _ _ hr'

theorem runFrom_msgs_bounded (es : List Event) (st : ServerState)
    (h : ∀ rid r, mapGet st.rooms rid = some r → r.messages.length ≤ 100) :
    ∀ rid r, mapGet (runFrom st es).rooms rid = some r → r.messages.length ≤ 100 := by
  induction es generalizing st with
  | nil => exact h
  | cons e rest ih => exact ih (stepSt st e) (step_msgs_bounded st e h)

/-- C2: on any event trace from a fresh server, every room's stored
message sequence has length at most 100; and a send_message accepted while
the room already holds exactly 100 messages drops the oldest (head) one
and appends the new one at the end, preserving insertion order. -/
theorem message_history_bounded (es : List Event) :
    (∀ rid r, mapGet (run es).rooms rid = some r → r.messages.length ≤ 100) ∧
    (∀ st sid m mid ts rid room,
      (sessionOf st sid).currentRoom = some rid → rid ≠ "" → jsTrim m ≠ "" →
      mapGet st.rooms rid = some room → room.messages.length = 100 →
      mapGet (handleSend st sid (some m) mid ts).1.rooms rid =
        some ⟨room.users,
          room.messages.drop 1 ++
            [⟨mid, (sessionOf st sid).username, sid, jsTrim m, ts⟩],
          room.createdAt⟩) := by
  constructor
  · exact runFrom_msgs_bounded es initState (fun rid r hr => by simp [initState, mapGet] at hr)
  · intro st sid m mid ts rid room hc hrid hs hg hlen
    have hfull : (room.messages ++
        [(⟨mid, (sessionOf st sid).username, sid, jsTrim m, ts⟩ : Message)]).length > 100 := by
      rw [List.length_append, hlen]
      simp
    have hne : room.messages ≠ [] := by
      intro hh
      rw [hh] at hlen
      simp at hlen
    simp only [handleSend, hc, if_neg hrid, if_neg hs, hg, if_pos hfull, gt_iff_lt]
    rw [mapGet_mapSet, if_pos rfl, drop_one_append _ _ hne]

/-- C2 witness: a room holding exactly 100 copies of a message; an accepted
send evicts the head and appends the new message. -/
theorem message_history_bounded_witness :
    (sessionOf ⟨[("r", ⟨["A"], List.replicate 100 ⟨"i0", some "Alice", "A", "hello", "t0"⟩, 0⟩)],
        [("A", ⟨some "Alice", some "r"⟩)]⟩ "A").currentRoom = some "r" ∧
    ("r" : String) ≠ "" ∧ jsTrim "hi" ≠ "" ∧
    (List.replicate 100 (⟨"i0", some "Alice", "A", "hello", "t0"⟩ : Message)).length = 100 ∧
    mapGet (handleSend ⟨[("r", ⟨["A"], List.replicate 100 ⟨"i0", some "Alice", "A", "hello", "t0"⟩, 0⟩)],
        [("A", ⟨some "Alice", some "r"⟩)]⟩ "A" (some "hi") "i1" "t1").1.rooms "r" =
      some ⟨["A"],
        (List.replicate 100 (⟨"i0", some "Alice", "A", "hello", "t0"⟩ : Message)).drop 1 ++
          [⟨"i1", (sessionOf ⟨[("r", ⟨["A"], List.replicate 100 ⟨"i0", some "Alice", "A", "hello", "t0"⟩, 0⟩)],
            [("A", ⟨some "Alice", some "r"⟩)]⟩ "A").username, "A", jsTrim "hi", "t1"⟩],
        0⟩ :=
  ⟨rfl, by decide, by decide, by simp,
   (message_history_bounded []).2
     ⟨[("r", ⟨["A"], List.replicate 100 ⟨"i0", some "Alice", "A", "hello", "t0"⟩, 0⟩)],
      [("A", ⟨some "Alice", some "r"⟩)]⟩
     "A" "hi" "i1" "t1" "r" ⟨["A"], List.replicate 100 ⟨"i0", some "Alice", "A", "hello", "t0"⟩, 0⟩
     rfl (by decide) (by decide) rfl (by simp)⟩

theorem handleJoin_preserves_room (st : ServerState) (sid : String) (d : JoinData)
    (k now : Nat) (rid0 : String) (h : (mapGet st.rooms rid0).isSome = true) :
    (mapGet (handleJoin st sid d k now).1.rooms rid0).isSome = true := by
  rw [handleJoin_rooms, mapGet_mapSet]
  by_cases he : d.roomId = rid0
  · simp [he]
  · rw [if_neg he, mapGet_getOrCreateRoom_ne _ _ _ _ he]
    cases hc : (sessionOf st sid).currentRoom with
    | none => exact h
    | some prev =>
      by_cases hp : prev = ""
      · simp only [leavePrev, if_pos hp]
        exact h
      · cases hg : mapGet st.rooms prev with
        | none =>
          simp only [leavePrev, if_neg hp, hg]
          exact h
        | some pr =>
          simp only [leavePrev, if_neg hp, hg]
          rw [mapGet_mapSet]
          by_cases hpe : prev = rid0 <;> simp [hpe, h]

theorem handleSend_preserves_room (st : ServerState) (sid : String) (m : Option String)
    (mid ts : String) (rid0 : String) (h : (mapGet st.rooms rid0).isSome = true) :
    (mapGet (handleSend st sid m mid ts).1.rooms rid0).isSome = true := by
  cases hc : (sessionOf st sid).currentRoom with
  | none => simpa [handleSend, hc] using h
  | some rid =>
    by_cases hrid : rid = ""
    · simpa [handleSend, hc, hrid] using h
    · cases m with
      | none => simpa [handleSend, hc, hrid] using h
      | some s =>
        by_cases hs : jsTrim s = ""
        · simpa [handleSend, hc, hrid, hs] using h
        · cases hg : mapGet st.rooms rid with
          | none => simpa [handleSend, hc, hrid, hs, hg] using h
          | some room =>
            simp only [handleSend, hc, if_neg hrid, if_neg hs, hg]
            rw [mapGet_mapSet]
            by_cases he : rid = rid0 <;> simp [he, h]

theorem handleDisconnect_preserves_room (st : ServerState) (sid : String)
    (rid0 : String) (h : (mapGet st.rooms rid0).isSome = true) :
    (mapGet (handleDisconnect st sid).1.rooms rid0).isSome = true := by
  cases hc : (sessionOf st sid).currentRoom with
  | none => simpa [handleDisconnect, hc] using h
  | some rid =>
    by_cases hrid : rid = ""
    · simpa [handleDisconnect, hc, hrid] using h
    · cases hg : mapGet st.rooms rid with
      | none => simpa [handleDisconnect, hc, hrid, hg] using h
      | some room =>
        simp only [handleDisconnect, hc, if_neg hrid, hg]
        rw [mapGet_mapSet]
        by_cases he : rid = rid0 <;> simp [he, h]

/-- C9 amended: join_room and send_message never schedule a reap — reap
scheduling happens only in the disconnect path (and only for the
disconnecting connection's current room) — and no event other than a reap
firing ever removes a room from the store.  However, a room emptied by its
last member switching rooms is only safe from deletion as long as no reap
scheduled by an EARLIER disconnect of that room is still pending: such a
pending reap finds the room empty and deletes it (see the
counterexample). -/
theorem reap_scheduling (st : ServerState) :
    (∀ sid d k now, (handleJoin st sid d k now).2.reaps = []) ∧
    (∀ sid m mid ts, (handleSend st sid m mid ts).2.reaps = []) ∧
    (∀ sid, (handleDisconnect st sid).2.reaps = [] ∨
      ∃ rid, (handleDisconnect st sid).2.reaps = [rid] ∧
        (sessionOf st sid).currentRoom = some rid) ∧
    (∀ e rid, (∀ rid', e ≠ Event.reap rid') →
      (mapGet st.rooms rid).isSome = true →
      (mapGet (stepSt st e).rooms rid).isSome = true) := by
  refine ⟨fun sid d k now => rfl, ?_, ?_, ?_⟩
  · intro sid m mid ts
    cases hc : (sessionOf st sid).currentRoom with
    | none => simp [handleSend, hc, Output.empty]
    | some rid =>
      by_cases hrid : rid = ""
      · simp [handleSend, hc, hrid, Output.empty]
      · cases m with
        | none => simp [handleSend, hc, hrid, Output.empty]
        | some s =>
          by_cases hs : jsTrim s = ""
          · simp [handleSend, hc, hrid, hs, Output.empty]
          · cases hg : mapGet st.rooms rid with
            | none => simp [handleSend, hc, hrid, hs, hg, Output.empty]
            | some room => simp [handleSend, hc, hrid, hs, hg, Output.empty]
  · intro sid
    cases hc : (sessionOf st sid).currentRoom with
    | none => exact Or.inl (by simp [handleDisconnect, hc, Output.empty])
    | some rid =>
      by_cases hrid : rid = ""
      · exact Or.inl (by simp [handleDisconnect, hc, hrid, Output.empty])
      · cases hg : mapGet st.rooms rid with
        | none => exact Or.inl (by simp [handleDisconnect, hc, hrid, hg, Output.empty])
        | some room =>
          by_cases hz : (room.users.erase sid).length = 0
          · refine Or.inr ⟨rid, ?_, rfl⟩
            simp [handleDisconnect, hc, hrid, hg, hz]
          · refine Or.inl ?_
            simp [handleDisconnect, hc, hrid, hg, hz]
  · intro e rid hne h
    cases e with
    | join sid d k now => exact handleJoin_preserves_room st sid d k now rid h
    | send sid m mid ts => exact handleSend_preserves_room st sid m mid ts rid h
    | disc sid => exact handleDisconnect_preserves_room st sid rid h
    | reap rid' => exact absurd rfl (hne rid')

/-- C9 witness: on a store holding room `r` with one member, a join of
another connection to room `x` schedules nothing, and room `r` stays in
the store. -/
theorem reap_scheduling_witness :
    (handleJoin ⟨[("r", ⟨["A"], [], 0⟩)], []⟩ "B" (JoinData.str "x") 0 0).2.reaps = [] ∧
    (∀ rid', Event.join "B" (JoinData.str "x") 0 0 ≠ Event.reap rid') ∧
    (mapGet (⟨[("r", ⟨["A"], [], 0⟩)], []⟩ : ServerState).rooms "r").isSome = true ∧
    (mapGet (stepSt ⟨[("r", ⟨["A"], [], 0⟩)], []⟩
      (Event.join "B" (JoinData.str "x") 0 0)).rooms "r").isSome = true :=
  ⟨(reap_scheduling ⟨[("r", ⟨["A"], [], 0⟩)], []⟩).1 "B" (JoinData.str "x") 0 0,
   fun _ h => Event.noConfusion h,
   rfl,
   (reap_scheduling ⟨[("r", ⟨["A"], [], 0⟩)], []⟩).2.2.2
     (Event.join "B" (JoinData.str "x") 0 0) "r" (fun _ h => Event.noConfusion h) rfl⟩

/-- C9 counterexample: A joins "r" and disconnects, scheduling a reap for
"r"; B then joins "r" and switches to "r2", leaving "r" empty via
join_room.  The pending reap — legitimately scheduled by the earlier
disconnect — then fires, finds "r" empty, and deletes it: the room emptied
by a room switch does NOT remain in the store indefinitely. -/
theorem reap_scheduling_cex :
    roomExistsB (run [Event.join "A" (JoinData.str "r") 0 0, Event.disc "A",
      Event.join "B" (JoinData.str "r") 0 0, Event.join "B" (JoinData.str "r2") 0 0]) "r" = true ∧
    userCountOf (run [Event.join "A" (JoinData.str "r") 0 0, Event.disc "A",
      Event.join "B" (JoinData.str "r") 0 0, Event.join "B" (JoinData.str "r2") 0 0]) "r" =
      some 0 ∧
    "r" ∈ collectReaps initState [Event.join "A" (JoinData.str "r") 0 0, Event.disc "A",
      Event.join "B" (JoinData.str "r") 0 0, Event.join "B" (JoinData.str "r2") 0 0] ∧
    roomExistsB (reapRoom (run [Event.join "A" (JoinData.str "r") 0 0, Event.disc "A",
      Event.join "B" (JoinData.str "r") 0 0, Event.join "B" (JoinData.str "r2") 0 0]) "r") "r" =
      false := by
  refine ⟨rfl, rfl, ?_, rfl⟩
  decide

theorem setAdd_nodup (l : List String) (x : String) (h : l.Nodup) : (setAdd l x).Nodup := by
  unfold setAdd
  by_cases hx : x ∈ l
  · simp [hx, h]
  · rw [if_neg hx]
    refine h.append (List.nodup_singleton x) ?_
    intro a ha hb
    rw [List.mem_singleton] at hb
    exact hx (hb ▸ ha)

theorem joinInv_step (st : ServerState) (L : String → Option String) (e : JoinEv)
    (hinv : JoinInv st L) (hrid : e.d.roomId ≠ "") :
    JoinInv (stepJoin st e) (fun s => if e.sid = s then some e.d.roomId else L s) := by
  obtain ⟨h1, h2, h3, h4, h5⟩ := hinv
  have hcur : (sessionOf st e.sid).currentRoom = L e.sid := h1 e.sid
  have hsess : (stepJoin st e).sessions =
      mapSet st.sessions e.sid
        ⟨some (resolveUsername e.d.customUsername e.k), some e.d.roomId⟩ :=
    handleJoin_sessions st e.sid e.d e.k e.now
  have hrooms : (stepJoin st e).rooms =
      mapSet (getOrCreateRoom (leavePrev st.rooms (sessionOf st e.sid).currentRoom e.sid)
        e.d.roomId e.now).1 e.d.roomId
        ⟨setAdd (getOrCreateRoom (leavePrev st.rooms (sessionOf st e.sid).currentRoom e.sid)
          e.d.roomId e.now).2.users e.sid,
         (getOrCreateRoom (leavePrev st.rooms (sessionOf st e.sid).currentRoom e.sid)
          e.d.roomId e.now).2.messages,
         (getOrCreateRoom (leavePrev st.rooms (sessionOf st e.sid).currentRoom e.sid)
          e.d.roomId e.now).2.createdAt⟩ :=
    handleJoin_rooms st e.sid e.d e.k e.now
  have hconj1 : ∀ s, (sessionOf (stepJoin st e) s).currentRoom =
      (if e.sid = s then some e.d.roomId else L s) := by
    intro s
    unfold sessionOf
    rw [hsess, mapGet_mapSet]
    by_cases hs : e.sid = s
    · rw [if_pos hs, if_pos hs]
      rfl
    · rw [if_neg hs, if_neg hs]
      exact h1 s
  -- the two shapes the pre-getOrCreate room map can take
  rcases hL : L e.sid with _ | p
  · -- no previous room: the leave step does nothing
    have hr1 : leavePrev st.rooms (sessionOf st e.sid).currentRoom e.sid = st.rooms := by
      rw [hcur, hL]
      rfl
    rw [hr1] at hrooms
    have hoff : ∀ rid0, rid0 ≠ e.d.roomId →
        mapGet (stepJoin st e).rooms rid0 = mapGet st.rooms rid0 := by
      intro rid0 hne
      rw [hrooms, mapGet_mapSet, if_neg (Ne.symm hne),
        mapGet_getOrCreateRoom_ne _ _ _ _ (Ne.symm hne)]
    have hat : mapGet (stepJoin st e).rooms e.d.roomId =
        some ⟨setAdd (getOrCreateRoom st.rooms e.d.roomId e.now).2.users e.sid,
              (getOrCreateRoom st.rooms e.d.roomId e.now).2.messages,
              (getOrCreateRoom st.rooms e.d.roomId e.now).2.createdAt⟩ := by
      rw [hrooms, mapGet_mapSet, if_pos rfl]
    refine ⟨hconj1, ?_, ?_, ?_, ?_⟩
    · intro s rid0 hLs
      have hLs' : (if e.sid = s then some e.d.roomId else L s) = some rid0 := hLs
      by_cases hs : e.sid = s
      · rw [if_pos hs] at hLs'
        injection hLs' with hLs'
        rw [← hLs']
        exact hrid
      · rw [if_neg hs] at hLs'
        exact h2 s rid0 hLs' 
    · intro s rid0 hLs
      have hLs' : (if e.sid = s then some e.d.roomId else L s) = some rid0 := hLs
      by_cases he : e.d.roomId = rid0
      · rw [← he, hat]
        rfl
      · by_cases hs : e.sid = s
        · rw [if_pos hs] at hLs'
          injection hLs' with hLs'
          exact absurd hLs' he
        · rw [if_neg hs] at hLs'
          rw [hoff rid0 (fun hh => he hh.symm)]
          exact h3 s rid0 hLs' 
    · intro rid0 r hget
      by_cases he : e.d.roomId = rid0
      · rw [← he, hat] at hget
        injection hget with hget
        rw [← hget]
        refine setAdd_nodup _ _ ?_
        cases hg : mapGet st.rooms e.d.roomId with
        | some rr =>
          have : (getOrCreateRoom st.rooms e.d.roomId e.now).2 = rr := by
            simp [getOrCreateRoom, hg]
          rw [this]
          exact h4 _ _ hg
        | none =>
          have : (getOrCreateRoom st.rooms e.d.roomId e.now).2 = ⟨[], [], e.now⟩ := by
            simp [getOrCreateRoom, hg]
          rw [this]
          exact List.nodup_nil
      · rw [hoff rid0 (fun hh => he hh.symm)] at hget
        exact h4 rid0 r hget
    · intro s rid0 r hget
      beta_reduce
      by_cases he : e.d.roomId = rid0
      · rw [← he] at hget ⊢
        rw [hat] at hget
        injection hget with hget
        rw [← hget]
        show s ∈ setAdd (getOrCreateRoom st.rooms e.d.roomId e.now).2.users e.sid ↔ _
        by_cases hs : e.sid = s
        · rw [if_pos hs]
          simp only [eq_self_iff_true, iff_true]
          rw [← hs]
          exact mem_setAdd_self _ _
        · rw [if_neg hs]
          rw [mem_setAdd_iff]
          have hsne : ¬ s = e.sid := fun hh => hs hh.symm
          simp only [hsne, or_false]
          cases hg : mapGet st.rooms e.d.roomId with
          | some rr =>
            have hgc : (getOrCreateRoom st.rooms e.d.roomId e.now).2 = rr := by
              simp [getOrCreateRoom, hg]
            rw [hgc]
            exact h5 s e.d.roomId rr hg
          | none =>
            have hgc : (getOrCreateRoom st.rooms e.d.roomId e.now).2 = ⟨[], [], e.now⟩ := by
              simp [getOrCreateRoom, hg]
            rw [hgc]
            simp only [List.not_mem_nil, false_iff]
            intro hLs
            have := h3 s e.d.roomId hLs
            rw [hg] at this
            exact Bool.noConfusion this
      · rw [hoff rid0 (fun hh => he hh.symm)] at hget
        by_cases hs : e.sid = s
        · rw [if_pos hs]
          have hiff := h5 s rid0 r hget
          rw [← hs] at hiff
          rw [hL] at hiff
          rw [← hs]
          simp only [hiff]
          constructor
          · intro hh
            exact absurd hh (by simp)
          · intro hh
            injection hh with hh
            exact absurd hh he
        · rw [if_neg hs]
          exact h5 s rid0 r hget
  · -- previous room p: it is non-empty-named and present, and sid is erased
    have hpne : p ≠ "" := h2 e.sid p hL
    have hpsome := h3 e.sid p hL
    obtain ⟨pr, hpr⟩ : ∃ pr, mapGet st.rooms p = some pr := by
      cases hg : mapGet st.rooms p with
      | some pr => exact ⟨pr, rfl⟩
      | none =>
        rw [hg] at hpsome
        exact Bool.noConfusion hpsome
    have hprnd : pr.users.Nodup := h4 p pr hpr
    have hr1 : leavePrev st.rooms (sessionOf st e.sid).currentRoom e.sid =
        mapSet st.rooms p ⟨pr.users.erase e.sid, pr.messages, pr.createdAt⟩ := by
      rw [hcur, hL]
      simp only [leavePrev, if_neg hpne, hpr]
    rw [hr1] at hrooms
    have hmid : ∀ rid0, mapGet (mapSet st.rooms p
        ⟨pr.users.erase e.sid, pr.messages, pr.createdAt⟩) rid0 =
        if p = rid0 then some ⟨pr.users.erase e.sid, pr.messages, pr.createdAt⟩
        else mapGet st.rooms rid0 := fun rid0 => mapGet_mapSet _ _ _ _
    have hoff : ∀ rid0, rid0 ≠ e.d.roomId →
        mapGet (stepJoin st e).rooms rid0 =
        (if p = rid0 then some ⟨pr.users.erase e.sid, pr.messages, pr.createdAt⟩
         else mapGet st.rooms rid0) := by
      intro rid0 hne
      rw [hrooms, mapGet_mapSet, if_neg (Ne.symm hne),
        mapGet_getOrCreateRoom_ne _ _ _ _ (Ne.symm hne), hmid]
    have hat : mapGet (stepJoin st e).rooms e.d.roomId =
        some ⟨setAdd (getOrCreateRoom (mapSet st.rooms p
            ⟨pr.users.erase e.sid, pr.messages, pr.createdAt⟩) e.d.roomId e.now).2.users e.sid,
          (getOrCreateRoom (mapSet st.rooms p
            ⟨pr.users.erase e.sid, pr.messages, pr.createdAt⟩) e.d.roomId e.now).2.messages,
          (getOrCreateRoom (mapSet st.rooms p
            ⟨pr.users.erase e.sid, pr.messages, pr.createdAt⟩) e.d.roomId e.now).2.createdAt⟩ := by
      rw [hrooms, mapGet_mapSet, if_pos rfl]
    -- the base membership list the target room is built from
    have hbase : ∀ s, s ≠ e.sid →
        (s ∈ (getOrCreateRoom (mapSet st.rooms p
          ⟨pr.users.erase e.sid, pr.messages, pr.createdAt⟩) e.d.roomId e.now).2.users ↔
         L s = some e.d.roomId) := by
      intro s hsne
      by_cases hpj : p = e.d.roomId
      · have hgc : (getOrCreateRoom (mapSet st.rooms p
            ⟨pr.users.erase e.sid, pr.messages, pr.createdAt⟩) e.d.roomId e.now).2 =
            ⟨pr.users.erase e.sid, pr.messages, pr.createdAt⟩ := by
          simp [getOrCreateRoom, mapGet_mapSet, hpj]
        rw [hgc]
        show s ∈ pr.users.erase e.sid ↔ _
        rw [List.mem_erase_of_ne hsne]
        rw [← hpj]
        exact h5 s p pr hpr
      · cases hg : mapGet st.rooms e.d.roomId with
        | some rr =>
          have hgc : (getOrCreateRoom (mapSet st.rooms p
              ⟨pr.users.erase e.sid, pr.messages, pr.createdAt⟩) e.d.roomId e.now).2 = rr := by
            simp [getOrCreateRoom, mapGet_mapSet, hpj, hg]
          rw [hgc]
          exact h5 s e.d.roomId rr hg
        | none =>
          have hgc : (getOrCreateRoom (mapSet st.rooms p
              ⟨pr.users.erase e.sid, pr.messages, pr.createdAt⟩) e.d.roomId e.now).2 =
              ⟨[], [], e.now⟩ := by
            simp [getOrCreateRoom, mapGet_mapSet, hpj, hg]
          rw [hgc]
          simp only [List.not_mem_nil, false_iff]
          intro hLs
          have := h3 s e.d.roomId hLs
          rw [hg] at this
          exact Bool.noConfusion this
    have hbasend : (getOrCreateRoom (mapSet st.rooms p
        ⟨pr.users.erase e.sid, pr.messages, pr.createdAt⟩) e.d.roomId e.now).2.users.Nodup := by
      by_cases hpj : p = e.d.roomId
      · have hgc : (getOrCreateRoom (mapSet st.rooms p
            ⟨pr.users.erase e.sid, pr.messages, pr.createdAt⟩) e.d.roomId e.now).2 =
            ⟨pr.users.erase e.sid, pr.messages, pr.createdAt⟩ := by
          simp [getOrCreateRoom, mapGet_mapSet, hpj]
        rw [hgc]
        exact hprnd.erase e.sid
      · cases hg : mapGet st.rooms e.d.roomId with
        | some rr =>
          have hgc : (getOrCreateRoom (mapSet st.rooms p
              ⟨pr.users.erase e.sid, pr.messages, pr.createdAt⟩) e.d.roomId e.now).2 = rr := by
            simp [getOrCreateRoom, mapGet_mapSet, hpj, hg]
          rw [hgc]
          exact h4 _ _ hg
        | none =>
          have hgc : (getOrCreateRoom (mapSet st.rooms p
              ⟨pr.users.erase e.sid, pr.messages, pr.createdAt⟩) e.d.roomId e.now).2 =
              ⟨[], [], e.now⟩ := by
            simp [getOrCreateRoom, mapGet_mapSet, hpj, hg]
          rw [hgc]
          exact List.nodup_nil
    refine ⟨hconj1, ?_, ?_, ?_, ?_⟩
    · intro s rid0 hLs
      have hLs' : (if e.sid = s then some e.d.roomId else L s) = some rid0 := hLs
      by_cases hs : e.sid = s
      · rw [if_pos hs] at hLs'
        injection hLs' with hLs'
        rw [← hLs']
        exact hrid
      · rw [if_neg hs] at hLs'
        exact h2 s rid0 hLs' 
    · intro s rid0 hLs
      have hLs' : (if e.sid = s then some e.d.roomId else L s) = some rid0 := hLs
      by_cases he : e.d.roomId = rid0
      · rw [← he, hat]
        rfl
      · by_cases hs : e.sid = s
        · rw [if_pos hs] at hLs'
          injection hLs' with hLs'
          exact absurd hLs' he
        · rw [if_neg hs] at hLs'
          rw [hoff rid0 (fun hh => he hh.symm)]
          by_cases hpe : p = rid0
          · rw [if_pos hpe]
            rfl
          · rw [if_neg hpe]
            exact h3 s rid0 hLs' 
    · intro rid0 r hget
      by_cases he : e.d.roomId = rid0
      · rw [← he, hat] at hget
        injection hget with hget
        rw [← hget]
        exact setAdd_nodup _ _ hbasend
      · rw [hoff rid0 (fun hh => he hh.symm)] at hget
        by_cases hpe : p = rid0
        · rw [if_pos hpe] at hget
          injection hget with hget
          rw [← hget]
          show (pr.users.erase e.sid).Nodup
          exact hprnd.erase e.sid
        · rw [if_neg hpe] at hget
          exact h4 rid0 r hget
    · intro s rid0 r hget
      beta_reduce
      by_cases he : e.d.roomId = rid0
      · rw [← he] at hget ⊢
        rw [hat] at hget
        injection hget with hget
        rw [← hget]
        show s ∈ setAdd _ e.sid ↔ _
        by_cases hs : e.sid = s
        · rw [if_pos hs]
          simp only [eq_self_iff_true, iff_true]
          rw [← hs]
          exact mem_setAdd_self _ _
        · rw [if_neg hs]
          rw [mem_setAdd_iff]
          have hsne : ¬ s = e.sid := fun hh => hs hh.symm
          simp only [hsne, or_false]
          exact hbase s hsne
      · rw [hoff rid0 (fun hh => he hh.symm)] at hget
        by_cases hpe : p = rid0
        · rw [if_pos hpe] at hget
          injection hget with hget
          rw [← hget]
          show s ∈ pr.users.erase e.sid ↔ _
          by_cases hs : e.sid = s
          · rw [if_pos hs]
            constructor
            · intro hh
              rw [← hs] at hh
              exact absurd ((hprnd.mem_erase_iff).1 hh).1 (by simp)
            · intro hh
              injection hh with hh
              exact absurd hh he
          · rw [if_neg hs]
            rw [List.mem_erase_of_ne (fun hh => hs hh.symm)]
            rw [← hpe]
            exact h5 s p pr hpr
        · rw [if_neg hpe] at hget
          by_cases hs : e.sid = s
          · rw [if_pos hs]
            have hiff := h5 s rid0 r hget
            rw [← hs, hL] at hiff
            constructor
            · intro hh
              have := hiff.1 (hs ▸ hh)
              injection this with this
              exact absurd (this ▸ rfl : p = rid0) hpe
            · intro hh
              injection hh with hh
              exact absurd hh he
          · rw [if_neg hs]
            exact h5 s rid0 r hget

theorem joinInv_init : JoinInv initState (fun _ => none) := by
  refine ⟨fun s => rfl, ?_, ?_, ?_, ?_⟩
  · intro s rid h
    exact Option.noConfusion h
  · intro s rid h
    exact Option.noConfusion h
  · intro rid r h
    exact Option.noConfusion h
  · intro s rid r h
    exact Option.noConfusion h

theorem joinInv_runJoins (js : List JoinEv) (hids : ∀ e ∈ js, e.d.roomId ≠ "")
    (st : ServerState) (L : String → Option String) (hinv : JoinInv st L) :
    JoinInv (runJoins st js) (lastJoinAux L js) := by
  induction js generalizing st L with
  | nil => exact hinv
  | cons e rest ih =>
    have hstep := joinInv_step st L e hinv (hids e (List.mem_cons_self e rest))
    exact ih (fun e' he' => hids e' (List.mem_cons_of_mem e he')) (stepJoin st e) _ hstep

/-- C1 amended: over any sequence of join_room events in which every named
room id is non-empty, each connection is a member of at most one room's
membership set, namely exactly the room named in its most recent join.
(The restriction to non-empty room ids is forced: the source's truthiness
test `if (socket.userData.currentRoom)` treats the empty-string room id as
"no previous room", so a connection that joined room "" is never removed
from it by a later join — see the counterexample.) -/
theorem join_membership_unique (js : List JoinEv) (hids : ∀ e ∈ js, e.d.roomId ≠ "")
    (sid : String) :
    (∀ rid r, mapGet (runJoins initState js).rooms rid = some r →
      (sid ∈ r.users ↔ lastJoin js sid = some rid)) ∧
    (∀ rid₁ rid₂ r₁ r₂, mapGet (runJoins initState js).rooms rid₁ = some r₁ →
      mapGet (runJoins initState js).rooms rid₂ = some r₂ →
      sid ∈ r₁.users → sid ∈ r₂.users → rid₁ = rid₂) := by
  obtain ⟨h1, h2, h3, h4, h5⟩ := joinInv_runJoins js hids initState (fun _ => none) joinInv_init
  constructor
  · intro rid r hget
    exact h5 sid rid r hget
  · intro rid₁ rid₂ r₁ r₂ hg1 hg2 hm1 hm2
    have e1 := (h5 sid rid₁ r₁ hg1).1 hm1
    have e2 := (h5 sid rid₂ r₂ hg2).1 hm2
    rw [e1] at e2
    injection e2

/-- C1 witness: after the single join of "A" to "lobby", membership of any
stored room is equivalent to that room being "A"'s most recent join. -/
theorem join_membership_unique_witness :
    (∀ e ∈ [(⟨"A", JoinData.str "lobby", 0, 0⟩ : JoinEv)], e.d.roomId ≠ "") ∧
    (∀ rid r, mapGet (runJoins initState [⟨"A", JoinData.str "lobby", 0, 0⟩]).rooms rid =
        some r →
      ("A" ∈ r.users ↔ lastJoin [⟨"A", JoinData.str "lobby", 0, 0⟩] "A" = some rid)) :=
  ⟨by decide,
   (join_membership_unique [⟨"A", JoinData.str "lobby", 0, 0⟩] (by decide) "A").1⟩

/-- C1 counterexample: connection "A" joins room "" and then room "x".
Because the empty-string current room is falsy, the leave step is skipped
and "A" remains a member of room "" while also becoming a member of room
"x": it is a member of two rooms at once, and it is a member of room ""
although its most recent join names "x". -/
theorem join_membership_unique_cex :
    memberB (runJoins initState
      [⟨"A", JoinData.str "", 0, 0⟩, ⟨"A", JoinData.str "x", 0, 0⟩]) "" "A" = true ∧
    memberB (runJoins initState
      [⟨"A", JoinData.str "", 0, 0⟩, ⟨"A", JoinData.str "x", 0, 0⟩]) "x" "A" = true ∧
    lastJoin [⟨"A", JoinData.str "", 0, 0⟩, ⟨"A", JoinData.str "x", 0, 0⟩] "A" = some "x" ∧
    ("" : String) ≠ "x" := by
  refine ⟨rfl, rfl, rfl, ?_⟩
  decide

end BurnerChat
